import Mathlib

/-!
A verification development for the template-metaprogramming expression
matcher of `src/IRMatch.h` (namespace `Halide::Internal::IRMatcher`).

The embedding models:
* `halide_type_t` as `HType` (code, bits, lanes), with the two poison
  flags packed into the top bits of `lanes` exactly as in the source;
* `halide_scalar_value_t` as a raw 64-bit payload (`Nat`), with `asI64`
  and `ofI64` interpreting it as a two's-complement `int64`;
* IR expressions (`Expr`), matcher patterns (`Pattern`), `MatcherState`;
* the `match` / `make` / `make_folded_const` operations, the per-operator
  constant-fold kernels, `to_expr` / `to_special_expr` with the
  monotonically increasing counter threaded explicitly, and the
  `Rewriter` entry point with a predicate.

C++ `double` arithmetic is host-language semantics rather than repository
code, so the float paths are parameterized by an abstract `FM` structure
of double-precision operations; no theorem below depends on a particular
model of doubles.
-/

namespace IRMatcher

/-- Type code of `halide_type_t` (`halide_type_code_t`). -/
inductive TCode where
  | tint
  | tuint
  | tfloat
  | thandle
deriving DecidableEq, Repr

/-- `halide_type_t`: code, bits and the lanes field.  The top two bits of
`lanes` are the poison flags, as in `MatcherState`. -/
structure HType where
  code : TCode
  bits : Nat
  lanes : Nat
deriving DecidableEq, Repr

/-- `MatcherState::signed_integer_overflow` (0x8000). -/
def signed_integer_overflow : Nat := 0x8000

/-- `MatcherState::indeterminate_expression` (0x4000). -/
def indeterminate_expression : Nat := 0x4000

/-- `MatcherState::special_values_mask` (0xc000). -/
def special_values_mask : Nat := 0xc000

/-- Interpret a raw 64-bit payload as a two's complement `int64_t`. -/
def asI64 (n : Nat) : Int :=
  if n % 2 ^ 64 < 2 ^ 63 then ((n % 2 ^ 64 : Nat) : Int)
  else ((n % 2 ^ 64 : Nat) : Int) - 2 ^ 64

/-- Store an `int64_t` value as a raw 64-bit payload. -/
def ofI64 (x : Int) : Nat := (x % (2 : Int) ^ 64).toNat

/-- The C idiom `((x << (64-bits)) >> (64-bits))` on `int64_t`:
truncate to `bits` bits and sign-extend. -/
def sext (bits : Nat) (x : Int) : Int :=
  let m := x % (2 : Int) ^ bits
  if m < 2 ^ (bits - 1) then m else m - 2 ^ bits

/-- Does the exact integer `x` fit in a signed `bits`-bit type? -/
def fitsB (bits : Nat) (x : Int) : Bool :=
  decide (-((2 : Int) ^ (bits - 1)) ≤ x ∧ x < 2 ^ (bits - 1))

/-- Modelled from the spec: `add_would_overflow` lives in IROperator.h,
which is not under src/.  Per §4.5: true iff the exact mathematical sum
does not fit in `bits` bits. -/
def add_would_overflow (bits : Nat) (a b : Int) : Bool := !fitsB bits (a + b)

/-- Modelled from the spec: `sub_would_overflow` lives in IROperator.h,
which is not under src/. -/
def sub_would_overflow (bits : Nat) (a b : Int) : Bool := !fitsB bits (a - b)

/-- Modelled from the spec: `mul_would_overflow` lives in IROperator.h,
which is not under src/. -/
def mul_would_overflow (bits : Nat) (a b : Int) : Bool := !fitsB bits (a * b)

/-- Modelled from the spec: `div_imp` lives in IROperator.h, which is not
under src/.  Per §4.5: floor division, `div(a,b) = floor(a/b)`. -/
def div_imp (a b : Int) : Int := Int.fdiv a b

/-- Modelled from the spec: `mod_imp` lives in IROperator.h, which is not
under src/.  Per §4.5: Euclidean-style modulus, `mod(a,b) = a - b*floor(a/b)`. -/
def mod_imp (a b : Int) : Int := Int.fmod a b

/-- Abstract model of the host language's `double` operations (IEEE
double precision is not repository code).  Payloads are the raw 64 bits. -/
structure FM where
  fadd : Nat → Nat → Nat
  fsub : Nat → Nat → Nat
  fmul : Nat → Nat → Nat
  fdiv : Nat → Nat → Nat
  fmodf : Nat → Nat → Nat
  fminf : Nat → Nat → Nat
  fmaxf : Nat → Nat → Nat
  fneg : Nat → Nat
  fofInt : Int → Nat
  feq : Nat → Nat → Bool
  flt : Nat → Nat → Bool
  fle : Nat → Nat → Bool

/-- A trivial instantiation of the double model, used to evaluate the
integer-only paths on concrete inputs. -/
def fmTriv : FM where
  fadd := fun _ _ => 0
  fsub := fun _ _ => 0
  fmul := fun _ _ => 0
  fdiv := fun _ _ => 0
  fmodf := fun _ _ => 0
  fminf := fun _ _ => 0
  fmaxf := fun _ _ => 0
  fneg := fun _ => 0
  fofInt := fun _ => 0
  feq := fun a b => decide (a = b)
  flt := fun _ _ => false
  fle := fun _ _ => false

/-- Names of `Call` nodes relevant to the matcher: the two reserved
sentinel intrinsics, and everything else. -/
inductive CName where
  | signed_integer_overflow
  | indeterminate_expression
  | cother (n : Nat)
deriving DecidableEq, Repr

/-- Binary operator kinds folded by `constant_fold_bin_op`. -/
inductive BinOpKind where
  | add
  | sub
  | mul
  | div
  | mod
  | minOp
  | maxOp
  | andOp
  | orOp
deriving DecidableEq, Repr

/-- Comparison operator kinds folded by `constant_fold_cmp_op`. -/
inductive CmpOpKind where
  | lt
  | le
  | gt
  | ge
  | eq
  | ne
deriving DecidableEq, Repr

/-- Read-only view of the IR nodes the engine inspects.  Every node
carries its `halide_type_t`.  `varE` stands for any node kind the matcher
treats as opaque (e.g. `Variable`), distinguished by an id. -/
inductive Expr where
  | intImm (t : HType) (v : Int)
  | uintImm (t : HType) (v : Nat)
  | floatImm (t : HType) (v : Nat)
  | bcast (t : HType) (value : Expr) (lanes : Nat)
  | rampE (t : HType) (base stride : Expr) (lanes : Nat)
  | binE (t : HType) (op : BinOpKind) (a b : Expr)
  | cmpE (t : HType) (op : CmpOpKind) (a b : Expr)
  | notE (t : HType) (a : Expr)
  | selE (t : HType) (c tv fv : Expr)
  | castE (t : HType) (v : Expr)
  | callE (t : HType) (name : CName) (arg : Expr)
  | varE (t : HType) (id : Nat)
deriving DecidableEq, Repr

/-- The type carried by an IR node. -/
def Expr.etype : Expr → HType
  | .intImm t _ => t
  | .uintImm t _ => t
  | .floatImm t _ => t
  | .bcast t _ _ => t
  | .rampE t _ _ _ => t
  | .binE t _ _ _ => t
  | .cmpE t _ _ _ => t
  | .notE t _ => t
  | .selE t _ _ _ => t
  | .castE t _ => t
  | .callE t _ _ => t
  | .varE t _ => t

/-- Peel one outer `Broadcast`, as the constant wildcards do. -/
def peelB : Expr → Expr
  | .bcast _ v _ => v
  | e => e

/-- Modelled from the spec: `equal_helper` is defined in IRMatch.cpp,
which is not under src/.  §4.2 requires a structural, type-aware equality
with a pointer-identity early-exit; in a value model the early-exit is
the reflexive case of structural equality. -/
def eqE (a b : Expr) : Bool := decide (a = b)

end IRMatcher

namespace IRMatcher

/-- Pointwise update of a function-backed array. -/
def upd {α : Type} (f : Nat → α) (i : Nat) (v : α) : Nat → α :=
  fun j => if j = i then v else f j

/-- `MatcherState`: bindings for subtree wildcards, and bound constants
(raw 64-bit payload plus type) for constant wildcards.  The C++ arrays
start uninitialized, so initial contents are arbitrary. -/
structure MState where
  bindings : Nat → Expr
  bound_const : Nat → Nat
  bound_const_type : Nat → HType

/-- `MatcherState::set_binding`. -/
def MState.set_binding (s : MState) (i : Nat) (e : Expr) : MState :=
  { s with bindings := upd s.bindings i e }

/-- `MatcherState::set_bound_const`. -/
def MState.set_bound_const (s : MState) (i : Nat) (v : Nat) (t : HType) : MState :=
  { s with bound_const := upd s.bound_const i v,
           bound_const_type := upd s.bound_const_type i t }

/-- The pattern algebra of namespace `IRMatcher`.  `CanProveOp` (needs an
external prover) and `Intrin`/`GCDOp` are not needed by any claim and are
omitted. -/
inductive Pattern where
  | wild (i : Nat)
  | wildConstInt (i : Nat)
  | wildConstUInt (i : Nat)
  | wildConstFloat (i : Nat)
  | wildConst (i : Nat)
  | const (v : Int)
  | binOp (op : BinOpKind) (a b : Pattern)
  | cmpOp (op : CmpOpKind) (a b : Pattern)
  | notOp (a : Pattern)
  | selectOp (c t f : Pattern)
  | broadcastOp (a : Pattern) (lanes : Int)
  | rampOp (a b : Pattern) (lanes : Int)
  | negateOp (a : Pattern)
  | castOp (t : HType) (a : Pattern)
  | foldOp (a : Pattern)
  | isConstOp (a : Pattern)
  | bindOp (i : Nat) (a : Pattern)
deriving DecidableEq, Repr

/-- The static `binds` mask of a pattern: bit `i` for constant wildcard
`i`, bit `i+16` for subtree wildcard `i`; `BindOp<i, A>` adds bit `i`. -/
def patBinds : Pattern → Nat
  | .wild i => 1 <<< (i + 16)
  | .wildConstInt i => 1 <<< i
  | .wildConstUInt i => 1 <<< i
  | .wildConstFloat i => 1 <<< i
  | .wildConst i => 1 <<< i
  | .const _ => 0
  | .binOp _ a b => patBinds a ||| patBinds b
  | .cmpOp _ a b => patBinds a ||| patBinds b
  | .notOp a => patBinds a
  | .selectOp c t f => patBinds c ||| patBinds t ||| patBinds f
  | .broadcastOp a _ => patBinds a
  | .rampOp a b _ => patBinds a ||| patBinds b
  | .negateOp a => patBinds a
  | .castOp _ a => patBinds a
  | .foldOp a => patBinds a
  | .isConstOp a => patBinds a
  | .bindOp i a => patBinds a ||| (1 <<< i)

/-- Modelled from the spec: `is_zero` lives in IROperator.h, which is not
under src/.  Used only by `NegateOp::match` (`-a` matches `Sub(0, a)`). -/
def is_zero_e (fm : FM) : Expr → Bool
  | .intImm _ v => decide (v = 0)
  | .uintImm _ v => decide (v = 0)
  | .floatImm _ v => fm.feq v (fm.fofInt 0)
  | .bcast _ v _ => is_zero_e fm v
  | _ => false

/-- `WildConstInt<i>::match`: peel one `Broadcast`, require an `IntImm`;
first occurrence binds `(value, e.type)`, repeat occurrence compares the
peeled immediate's type and value against the stored binding. -/
def wcIntMatch (i : Nat) (e : Expr) (bound : Nat) (s : MState) : Bool × MState :=
  match peelB e with
  | .intImm t v =>
      if bound &&& (1 <<< i) ≠ 0 then
        (decide (t = s.bound_const_type i) && decide (v = asI64 (s.bound_const i)), s)
      else (true, s.set_bound_const i (ofI64 v) e.etype)
  | _ => (false, s)

/-- `WildConstUInt<i>::match`. -/
def wcUIntMatch (i : Nat) (e : Expr) (bound : Nat) (s : MState) : Bool × MState :=
  match peelB e with
  | .uintImm t v =>
      if bound &&& (1 <<< i) ≠ 0 then
        (decide (t = s.bound_const_type i) && decide (v = s.bound_const i), s)
      else (true, s.set_bound_const i v e.etype)
  | _ => (false, s)

/-- `WildConstFloat<i>::match`.  Note the source captures `ty = e.type`
before peeling; that is the type it binds. -/
def wcFloatMatch (fm : FM) (i : Nat) (e : Expr) (bound : Nat) (s : MState) : Bool × MState :=
  match peelB e with
  | .floatImm t v =>
      if bound &&& (1 <<< i) ≠ 0 then
        (decide (t = s.bound_const_type i) && fm.feq v (s.bound_const i), s)
      else (true, s.set_bound_const i v e.etype)
  | _ => (false, s)

/-- The `match` operation of each pattern against an IR node, with the
(statically threaded, here runtime) `bound` mask.  Returns the C++ `bool`
result together with the (possibly partially written) state.  Pattern
kinds with no `match` method in the source (`FoldOp`, `IsConstOp`,
`BindOp`) return `false`. -/
def pmatch (fm : FM) : Pattern → Expr → Nat → MState → Bool × MState
  | .wild i, e, bound, s =>
      if bound &&& (1 <<< (i + 16)) ≠ 0 then (eqE (s.bindings i) e, s)
      else (true, s.set_binding i e)
  | .wildConstInt i, e, bound, s => wcIntMatch i e bound s
  | .wildConstUInt i, e, bound, s => wcUIntMatch i e bound s
  | .wildConstFloat i, e, bound, s => wcFloatMatch fm i e bound s
  | .wildConst i, e, bound, s =>
      match peelB e with
      | .intImm _ _ => wcIntMatch i e bound s
      | .uintImm _ _ => wcUIntMatch i e bound s
      | .floatImm _ _ => wcFloatMatch fm i e bound s
      | _ => (false, s)
  | .const cv, e, _, s =>
      match peelB e with
      | .intImm _ v => (decide (v = cv), s)
      | .uintImm _ v => (decide (v = ofI64 cv), s)
      | .floatImm _ v => (fm.feq v (fm.fofInt cv), s)
      | _ => (false, s)
  | .binOp op pa pb, e, bound, s =>
      match e with
      | .binE _ eop ea eb =>
          if op = eop then
            let r1 := pmatch fm pa ea bound s
            if r1.1 then pmatch fm pb eb (bound ||| patBinds pa) r1.2
            else (false, r1.2)
          else (false, s)
      | _ => (false, s)
  | .cmpOp op pa pb, e, bound, s =>
      match e with
      | .cmpE _ eop ea eb =>
          if op = eop then
            let r1 := pmatch fm pa ea bound s
            if r1.1 then pmatch fm pb eb (bound ||| patBinds pa) r1.2
            else (false, r1.2)
          else (false, s)
      | _ => (false, s)
  | .notOp pa, e, bound, s =>
      match e with
      | .notE _ ea => pmatch fm pa ea bound s
      | _ => (false, s)
  | .selectOp pc pt pf, e, bound, s =>
      match e with
      | .selE _ ec et ef =>
          let r1 := pmatch fm pc ec bound s
          if r1.1 then
            let r2 := pmatch fm pt et (bound ||| patBinds pc) r1.2
            if r2.1 then
              pmatch fm pf ef (bound ||| patBinds pc ||| patBinds pt) r2.2
            else (false, r2.2)
          else (false, r1.2)
      | _ => (false, s)
  | .broadcastOp pa lanes, e, bound, s =>
      match e with
      | .bcast _ ev ln =>
          if lanes = -1 ∨ lanes = (ln : Int) then pmatch fm pa ev bound s
          else (false, s)
      | _ => (false, s)
  | .rampOp pa pb _, e, bound, s =>
      match e with
      | .rampE _ eb es _ =>
          let r1 := pmatch fm pa eb bound s
          if r1.1 then pmatch fm pb es (bound ||| patBinds pa) r1.2
          else (false, r1.2)
      | _ => (false, s)
  | .negateOp pa, e, bound, s =>
      match e with
      | .binE _ .sub ea eb =>
          let r1 := pmatch fm pa eb bound s
          (r1.1 && is_zero_e fm ea, r1.2)
      | _ => (false, s)
  | .castOp _ pa, e, bound, s =>
      match e with
      | .castE _ ev => pmatch fm pa ev bound s
      | _ => (false, s)
  | .foldOp _, _, _, s => (false, s)
  | .isConstOp _, _, _, s => (false, s)
  | .bindOp _ _, _, _, s => (false, s)

end IRMatcher

namespace IRMatcher

/-- Set the signed-overflow flag on a type (`t.lanes |= 0x8000`). -/
def HType.sio (t : HType) : HType := { t with lanes := t.lanes ||| signed_integer_overflow }

/-- Set the indeterminate flag on a type (`t.lanes |= 0x4000`). -/
def HType.ind (t : HType) : HType := { t with lanes := t.lanes ||| indeterminate_expression }

/-- The `int64_t` instantiations of `constant_fold_bin_op`.  Arguments
are the `int64` values (`asI64` of the raw payloads); the returned value
is reduced to a raw payload by the caller via `ofI64`.  `And`/`Or` return
0 in the signed domain (dead code kept faithful to the source). -/
def cfBinInt (op : BinOpKind) (t : HType) (a b : Int) : Int × HType :=
  match op with
  | .add =>
      (sext t.bits (a + b),
       if 32 ≤ t.bits && add_would_overflow t.bits a b then t.sio else t)
  | .sub =>
      (sext t.bits (a - b),
       if 32 ≤ t.bits && sub_would_overflow t.bits a b then t.sio else t)
  | .mul =>
      (sext t.bits (a * b),
       if 32 ≤ t.bits && mul_would_overflow t.bits a b then t.sio else t)
  | .div => if b = 0 then (0, t.ind) else (div_imp a b, t)
  | .mod => if b = 0 then (0, t.ind) else (mod_imp a b, t)
  | .minOp => (min a b, t)
  | .maxOp => (max a b, t)
  | .andOp => (0, t)
  | .orOp => (0, t)

/-- The `uint64_t` instantiations of `constant_fold_bin_op`.  Add/Sub/Mul
mask to `t.bits` (`& (ones >> (64 - bits))`); subtraction first wraps
modulo 2^64 as the C `uint64_t` subtraction does. -/
def cfBinUInt (op : BinOpKind) (t : HType) (a b : Nat) : Nat × HType :=
  match op with
  | .add => ((a + b) % 2 ^ t.bits, t)
  | .sub => ((a + (2 ^ 64 - b % 2 ^ 64)) % 2 ^ t.bits, t)
  | .mul => ((a * b) % 2 ^ t.bits, t)
  | .div => if b = 0 then (0, t.ind) else (a / b, t)
  | .mod => if b = 0 then (0, t.ind) else (a % b, t)
  | .minOp => (min a b, t)
  | .maxOp => (max a b, t)
  | .andOp => (a &&& b, t)
  | .orOp => (a ||| b, t)

/-- The `double` instantiations of `constant_fold_bin_op`, via the
abstract double model.  None of them touch the type; `And`/`Or` return 0
(dead code kept faithful to the source). -/
def cfBinFloat (fm : FM) (op : BinOpKind) (t : HType) (a b : Nat) : Nat × HType :=
  match op with
  | .add => (fm.fadd a b, t)
  | .sub => (fm.fsub a b, t)
  | .mul => (fm.fmul a b, t)
  | .div => (fm.fdiv a b, t)
  | .mod => (fm.fmodf a b, t)
  | .minOp => (fm.fminf a b, t)
  | .maxOp => (fm.fmaxf a b, t)
  | .andOp => (0, t)
  | .orOp => (0, t)

/-- `constant_fold_cmp_op` over `int64_t`. -/
def cCmpInt (op : CmpOpKind) (a b : Int) : Bool :=
  match op with
  | .lt => decide (a < b)
  | .le => decide (a ≤ b)
  | .gt => decide (b < a)
  | .ge => decide (b ≤ a)
  | .eq => decide (a = b)
  | .ne => decide (a ≠ b)

/-- `constant_fold_cmp_op` over `uint64_t`. -/
def cCmpUInt (op : CmpOpKind) (a b : Nat) : Bool :=
  match op with
  | .lt => decide (a < b)
  | .le => decide (a ≤ b)
  | .gt => decide (b < a)
  | .ge => decide (b ≤ a)
  | .eq => decide (a = b)
  | .ne => decide (a ≠ b)

/-- `constant_fold_cmp_op` over `double`, via the abstract double model. -/
def cCmpFloat (fm : FM) (op : CmpOpKind) (a b : Nat) : Bool :=
  match op with
  | .lt => fm.flt a b
  | .le => fm.fle a b
  | .gt => fm.flt b a
  | .ge => fm.fle b a
  | .eq => fm.feq a b
  | .ne => !fm.feq a b

/-- `Bool` to the 0/1 payload of a folded comparison. -/
def b2n (b : Bool) : Nat := if b then 1 else 0

/-- Halide's `Type::is_vector()`: lane count different from one. -/
def HType.isVec (t : HType) : Bool := decide (t.lanes ≠ 1)

/-- Modelled from the spec: `Broadcast::make` (IR.cpp is not under src/)
produces a node whose type is the value's type with the given lane count. -/
def mkBroadcast (e : Expr) (lanes : Nat) : Expr :=
  .bcast { e.etype with lanes := lanes } e lanes

/-- Modelled from the spec: the binary `Op::make` constructors (IR.cpp is
not under src/) produce a node of the left operand's type. -/
def mkBin (op : BinOpKind) (a b : Expr) : Expr := .binE a.etype op a b

/-- Modelled from the spec: the comparison `Op::make` constructors
produce a boolean (`uint1`) node with the operand lane count. -/
def mkCmp (op : CmpOpKind) (a b : Expr) : Expr :=
  .cmpE { code := .tuint, bits := 1, lanes := a.etype.lanes } op a b

/-- Modelled from the spec: `make_const` (IROperator.h is not under src/)
builds the scalar immediate of the given type from an `int`, broadcasting
when the type has more than one lane. -/
def make_const_e (fm : FM) (t : HType) (v : Int) : Option Expr :=
  let sc : HType := { t with lanes := 1 }
  let e? : Option Expr :=
    match t.code with
    | .tint => some (.intImm sc v)
    | .tuint => some (.uintImm sc (ofI64 v))
    | .tfloat => some (.floatImm sc (fm.fofInt v))
    | .thandle => none
  match e? with
  | some e => some (if t.lanes > 1 then mkBroadcast e t.lanes else e)
  | none => none

/-- Modelled from the spec: `is_const` (IROperator.h is not under src/):
an expression is a constant iff it is an immediate or a broadcast of one. -/
def is_const_e : Expr → Bool
  | .intImm _ _ => true
  | .uintImm _ _ => true
  | .floatImm _ _ => true
  | .bcast _ v _ => is_const_e v
  | _ => false

/-- The `halide_type_t` of the `int` argument of a sentinel call. -/
def int32T : HType := { code := .tint, bits := 32, lanes := 1 }

/-- `to_special_expr`: emit a sentinel intrinsic call for a poisoned
type.  The process-wide atomic counter is threaded explicitly: the call's
argument is the current counter value, which is then incremented.
Indeterminate takes priority over overflow, as in the source.  Returns
`none` (the null `Expr()`) when no poison bit is set (unreachable). -/
def to_special_expr (ty : HType) (ctr : Nat) : Option Expr × Nat :=
  let flags := ty.lanes &&& special_values_mask
  let ty' : HType := { ty with lanes := ty.lanes &&& 0x3fff }
  if flags &&& indeterminate_expression ≠ 0 then
    (some (.callE ty' .indeterminate_expression (.intImm int32T ctr)), ctr + 1)
  else if flags &&& signed_integer_overflow ≠ 0 then
    (some (.callE ty' .signed_integer_overflow (.intImm int32T ctr)), ctr + 1)
  else (none, ctr)

/-- `to_expr(halide_scalar_value_t, halide_type_t, ...)`: poisoned types
go to `to_special_expr`; otherwise build the scalar immediate for the
code, broadcasting when the recorded lane count exceeds one.  `none`
models the null `Expr()` of the unreachable default case. -/
def to_expr_val (val : Nat) (ty : HType) (ctr : Nat) : Option Expr × Nat :=
  if ty.lanes &&& special_values_mask ≠ 0 then to_special_expr ty ctr
  else
    let lanes := ty.lanes
    let sc : HType := { ty with lanes := 1 }
    let e? : Option Expr :=
      match ty.code with
      | .tint => some (.intImm sc (asI64 val))
      | .tuint => some (.uintImm sc val)
      | .tfloat => some (.floatImm sc val)
      | .thandle => none
    match e? with
    | some e => (some (if lanes > 1 then mkBroadcast e lanes else e), ctr)
    | none => (none, ctr)

end IRMatcher

namespace IRMatcher

/-- The result of `make_folded_const`: raw payload, type, and the
(possibly updated) state with the threaded sentinel counter. -/
structure FoldRes where
  val : Nat
  ty : HType
  st : MState
  ctr : Nat

/-- The result of `make`: the built expression (`none` for the null
`Expr()` / a pattern kind with no `make` method), state and counter. -/
structure MakeRes where
  e? : Option Expr
  st : MState
  ctr : Nat

/-- Sentinel for pattern kinds with no `make_folded_const` method in the
source (using them in a fold position is a C++ compile error). -/
def noFold (s : MState) (c : Nat) : FoldRes :=
  { val := 0, ty := { code := .tuint, bits := 0, lanes := 0 }, st := s, ctr := c }

/-- Is this pattern syntactically a literal `Const`?  This mirrors the
C++ template dispatch that selects the `BinOpFolder`/`CmpOpFolder`
partial specializations for a `Const` operand. -/
def isConstP : Pattern → Bool
  | .const _ => true
  | _ => false

/-- The `int` payload of a literal `Const` pattern. -/
def constVal : Pattern → Int
  | .const v => v
  | _ => 0

mutual

/-- The `make` operation (pattern → expression), mirroring the
`BinOpFolder`/`CmpOpFolder` template specializations: when one operand is
a literal `Const`, the other operand is built first and the constant is
materialized at its type via `make_const`; otherwise both operands are
built left-to-right and a `Broadcast` is inserted on the scalar side when
vector-ness disagrees. -/
def pmake (fm : FM) : Pattern → MState → Nat → MakeRes
  | .wild i, s, c => { e? := some (s.bindings i), st := s, ctr := c }
  | .wildConstInt i, s, c =>
      let r := to_expr_val (s.bound_const i) (s.bound_const_type i) c
      { e? := r.1, st := s, ctr := r.2 }
  | .wildConstUInt i, s, c =>
      let r := to_expr_val (s.bound_const i) (s.bound_const_type i) c
      { e? := r.1, st := s, ctr := r.2 }
  | .wildConstFloat i, s, c =>
      let r := to_expr_val (s.bound_const i) (s.bound_const_type i) c
      { e? := r.1, st := s, ctr := r.2 }
  | .wildConst i, s, c =>
      let r := to_expr_val (s.bound_const i) (s.bound_const_type i) c
      { e? := r.1, st := s, ctr := r.2 }
  | .const _, s, c => { e? := none, st := s, ctr := c }
  | .binOp op pa pb, s, c =>
      match pa, pb with
      | .const av, pb' =>
          let rb := pmake fm pb' s c
          match rb.e? with
          | some eb =>
              match make_const_e fm eb.etype av with
              | some ea => { rb with e? := some (mkBin op ea eb) }
              | none => { rb with e? := none }
          | none => { rb with e? := none }
      | pa', .const bv =>
          let ra := pmake fm pa' s c
          match ra.e? with
          | some ea =>
              match make_const_e fm ea.etype bv with
              | some eb => { ra with e? := some (mkBin op ea eb) }
              | none => { ra with e? := none }
          | none => { ra with e? := none }
      | pa', pb' =>
          let ra := pmake fm pa' s c
          let rb := pmake fm pb' ra.st ra.ctr
          match ra.e?, rb.e? with
          | some ea, some eb =>
              let eb' := if ea.etype.isVec && !eb.etype.isVec
                         then mkBroadcast eb ea.etype.lanes else eb
              let ea' := if eb'.etype.isVec && !ea.etype.isVec
                         then mkBroadcast ea eb'.etype.lanes else ea
              { rb with e? := some (mkBin op ea' eb') }
          | _, _ => { rb with e? := none }
  | .cmpOp op pa pb, s, c =>
      match pa, pb with
      | .const av, pb' =>
          let rb := pmake fm pb' s c
          match rb.e? with
          | some eb =>
              match make_const_e fm eb.etype av with
              | some ea => { rb with e? := some (mkCmp op ea eb) }
              | none => { rb with e? := none }
          | none => { rb with e? := none }
      | pa', .const bv =>
          let ra := pmake fm pa' s c
          match ra.e? with
          | some ea =>
              match make_const_e fm ea.etype bv with
              | some eb => { ra with e? := some (mkCmp op ea eb) }
              | none => { ra with e? := none }
          | none => { ra with e? := none }
      | pa', pb' =>
          let ra := pmake fm pa' s c
          let rb := pmake fm pb' ra.st ra.ctr
          match ra.e?, rb.e? with
          | some ea, some eb =>
              let eb' := if ea.etype.isVec && !eb.etype.isVec
                         then mkBroadcast eb ea.etype.lanes else eb
              let ea' := if eb'.etype.isVec && !ea.etype.isVec
                         then mkBroadcast ea eb'.etype.lanes else ea
              { rb with e? := some (mkCmp op ea' eb') }
          | _, _ => { rb with e? := none }
  | .notOp pa, s, c =>
      let ra := pmake fm pa s c
      match ra.e? with
      | some ea => { ra with e? := some (.notE ea.etype ea) }
      | none => { ra with e? := none }
  | .selectOp pc pt pf, s, c =>
      let rc := pmake fm pc s c
      let rt := pmake fm pt rc.st rc.ctr
      let rf := pmake fm pf rt.st rt.ctr
      match rc.e?, rt.e?, rf.e? with
      | some ec, some et, some ef =>
          { rf with e? := some (.selE et.etype ec et ef) }
      | _, _, _ => { rf with e? := none }
  | .broadcastOp pa lanes, s, c =>
      let ra := pmake fm pa s c
      match ra.e? with
      | some ea => { ra with e? := some (mkBroadcast ea lanes.toNat) }
      | none => { ra with e? := none }
  | .rampOp pa pb lanes, s, c =>
      let ra := pmake fm pa s c
      let rb := pmake fm pb ra.st ra.ctr
      match ra.e?, rb.e? with
      | some ea, some eb =>
          { rb with e? := some (.rampE { ea.etype with lanes := lanes.toNat } ea eb lanes.toNat) }
      | _, _ => { rb with e? := none }
  | .negateOp pa, s, c =>
      let ra := pmake fm pa s c
      match ra.e? with
      | some ea =>
          match make_const_e fm ea.etype 0 with
          | some z => { ra with e? := some (mkBin .sub z ea) }
          | none => { ra with e? := none }
      | none => { ra with e? := none }
  | .castOp t pa, s, c =>
      let ra := pmake fm pa s c
      match ra.e? with
      | some ea => { ra with e? := some (.castE t ea) }
      | none => { ra with e? := none }
  | .foldOp pa, s, c =>
      let r := foldConst fm pa s c
      let t := to_expr_val r.val r.ty r.ctr
      { e? := t.1, st := r.st, ctr := t.2 }
  | .isConstOp _, s, c => { e? := none, st := s, ctr := c }
  | .bindOp _ _, s, c => { e? := none, st := s, ctr := c }

/-- The `make_folded_const` operation, mirroring the `BinOpFolder` and
`CmpOpFolder` template specializations (including that the generic
folder short-circuits `And` on a zero left value and `Or` on a one left
value, while the `Const` specializations do not), `NotOp`, `NegateOp`,
`IsConstOp` and `BindOp`.  Pattern kinds without a `make_folded_const`
method return the `noFold` sentinel. -/
def foldConst (fm : FM) : Pattern → MState → Nat → FoldRes
  | .wild _, s, c => noFold s c
  | .wildConstInt i, s, c =>
      { val := s.bound_const i, ty := s.bound_const_type i, st := s, ctr := c }
  | .wildConstUInt i, s, c =>
      { val := s.bound_const i, ty := s.bound_const_type i, st := s, ctr := c }
  | .wildConstFloat i, s, c =>
      { val := s.bound_const i, ty := s.bound_const_type i, st := s, ctr := c }
  | .wildConst i, s, c =>
      { val := s.bound_const i, ty := s.bound_const_type i, st := s, ctr := c }
  | .const _, s, c => noFold s c
  | .binOp op pa pb, s, c =>
      if isConstP pa then
        let rb := foldConst fm pb s c
        match rb.ty.code with
        | .tint =>
            let k := cfBinInt op rb.ty (constVal pa) (asI64 rb.val)
            { rb with val := ofI64 k.1, ty := k.2 }
        | .tuint =>
            let k := cfBinUInt op rb.ty (ofI64 (constVal pa)) rb.val
            { rb with val := k.1, ty := k.2 }
        | .tfloat =>
            let k := cfBinFloat fm op rb.ty (fm.fofInt (constVal pa)) rb.val
            { rb with val := k.1, ty := k.2 }
        | .thandle => rb
      else if isConstP pb then
        let ra := foldConst fm pa s c
        match ra.ty.code with
        | .tint =>
            let k := cfBinInt op ra.ty (asI64 ra.val) (constVal pb)
            { ra with val := ofI64 k.1, ty := k.2 }
        | .tuint =>
            let k := cfBinUInt op ra.ty ra.val (ofI64 (constVal pb))
            { ra with val := k.1, ty := k.2 }
        | .tfloat =>
            let k := cfBinFloat fm op ra.ty ra.val (fm.fofInt (constVal pb))
            { ra with val := k.1, ty := k.2 }
        | .thandle => ra
      else
        let ra := foldConst fm pa s c
        if (op = .andOp && ra.val = 0) || (op = .orOp && ra.val = 1) then ra
        else
          let rb := foldConst fm pb ra.st ra.ctr
          let ty0 : HType := { ra.ty with lanes := ra.ty.lanes ||| rb.ty.lanes }
          match ra.ty.code with
          | .tint =>
              let k := cfBinInt op ty0 (asI64 ra.val) (asI64 rb.val)
              { rb with val := ofI64 k.1, ty := k.2 }
          | .tuint =>
              let k := cfBinUInt op ty0 ra.val rb.val
              { rb with val := k.1, ty := k.2 }
          | .tfloat =>
              let k := cfBinFloat fm op ty0 ra.val rb.val
              { rb with val := k.1, ty := k.2 }
          | .thandle => { rb with val := 0, ty := ty0 }
  | .cmpOp op pa pb, s, c =>
      if isConstP pa then
        let rb := foldConst fm pb s c
        let v : Nat :=
          match rb.ty.code with
          | .tint => b2n (cCmpInt op (constVal pa) (asI64 rb.val))
          | .tuint => b2n (cCmpUInt op (ofI64 (constVal pa)) rb.val)
          | .tfloat => b2n (cCmpFloat fm op (fm.fofInt (constVal pa)) rb.val)
          | .thandle => rb.val
        { rb with val := v, ty := { rb.ty with code := .tuint, bits := 1 } }
      else if isConstP pb then
        let ra := foldConst fm pa s c
        let v : Nat :=
          match ra.ty.code with
          | .tint => b2n (cCmpInt op (asI64 ra.val) (constVal pb))
          | .tuint => b2n (cCmpUInt op ra.val (ofI64 (constVal pb)))
          | .tfloat => b2n (cCmpFloat fm op ra.val (fm.fofInt (constVal pb)))
          | .thandle => ra.val
        { ra with val := v, ty := { ra.ty with code := .tuint, bits := 1 } }
      else
        let ra := foldConst fm pa s c
        let rb := foldConst fm pb ra.st ra.ctr
          let ty0 : HType :=
            { code := .tuint, bits := 1, lanes := ra.ty.lanes ||| rb.ty.lanes }
          let v : Nat :=
            match ra.ty.code with
            | .tint => b2n (cCmpInt op (asI64 ra.val) (asI64 rb.val))
            | .tuint => b2n (cCmpUInt op ra.val rb.val)
            | .tfloat => b2n (cCmpFloat fm op ra.val rb.val)
            | .thandle => 0
          { rb with val := v, ty := ty0 }
  | .notOp pa, s, c =>
      let ra := foldConst fm pa s c
      { ra with val := if ra.val = 0 then 1 else 0 }
  | .selectOp _ _ _, s, c => noFold s c
  | .broadcastOp _ _, s, c => noFold s c
  | .rampOp _ _ _, s, c => noFold s c
  | .negateOp pa, s, c =>
      let ra := foldConst fm pa s c
      match ra.ty.code with
      | .tint =>
          if 32 ≤ ra.ty.bits ∧ ra.val % 2 ^ 64 ≠ 0 ∧
             (ra.val <<< (65 - ra.ty.bits)) % 2 ^ 64 = 0 then
            { ra with ty := ra.ty.sio }
          else
            { ra with val := ofI64 (sext ra.ty.bits (-(asI64 ra.val))) }
      | .tuint =>
          { ra with val := (2 ^ 64 - ra.val % 2 ^ 64) % 2 ^ ra.ty.bits }
      | .tfloat => { ra with val := fm.fneg ra.val }
      | .thandle => ra
  | .castOp _ _, s, c => noFold s c
  | .foldOp _, s, c => noFold s c
  | .isConstOp pa, s, c =>
      let ra := pmake fm pa s c
      let v : Nat :=
        match ra.e? with
        | some e => if is_const_e e then 1 else 0
        | none => 0
      { val := v, ty := { code := .tuint, bits := 64, lanes := 1 },
        st := ra.st, ctr := ra.ctr }
  | .bindOp i pa, s, c =>
      let ra := foldConst fm pa s c
      { val := 1, ty := { code := .tuint, bits := 1, lanes := 1 },
        st := ra.st.set_bound_const i ra.val ra.ty, ctr := ra.ctr }

end

end IRMatcher

namespace IRMatcher

/-- `evaluate_predicate(Pattern, MatcherState)`: fold the predicate; it
holds iff the payload is non-zero and the result type has no poison bit
in its lanes field. -/
def evaluate_predicate (fm : FM) (p : Pattern) (s : MState) (c : Nat) :
    Bool × MState × Nat :=
  let r := foldConst fm p s c
  (decide (r.val ≠ 0) && decide (r.ty.lanes &&& special_values_mask = 0), r.st, r.ctr)

/-- The result of one `Rewriter::operator()(before, after, pred)` call:
whether the rule fired, the staged result (`none` when it did not fire,
modelling the untouched `result` member), and the sentinel counter. -/
structure RewriteRes where
  fired : Bool
  result : Option Expr
  ctr : Nat

/-- `Rewriter::operator()(Before, After, Predicate)` for a pattern rhs:
fresh-state match of `before` against the root with mask 0, then the
predicate via `evaluate_predicate`; on success the result is staged as
`after.make(state)`.  `s0` is the arbitrary initial contents of the
uninitialized `MatcherState`. -/
def rewriterApply (fm : FM) (before after pred : Pattern) (root : Expr)
    (s0 : MState) (c0 : Nat) : RewriteRes :=
  let m := pmatch fm before root 0 s0
  if m.1 then
    let p := evaluate_predicate fm pred m.2 c0
    if p.1 then
      let r := pmake fm after p.2.1 p.2.2
      { fired := true, result := r.e?, ctr := r.ctr }
    else { fired := false, result := none, ctr := p.2.2 }
  else { fired := false, result := none, ctr := c0 }

end IRMatcher

namespace IRMatcher

lemma and_two_pow_eq_zero (x k : Nat) : x &&& 2 ^ k = 0 ↔ x.testBit k = false := by
  rw [Nat.and_two_pow]
  rcases h : x.testBit k <;> simp [h, Nat.pos_pow_of_pos]

lemma and_lor_left (x a b : Nat) : x &&& (a ||| b) = (x &&& a) ||| (x &&& b) :=
  Nat.eq_of_testBit_eq fun j => by
    simp [Nat.testBit_land, Nat.testBit_lor, Bool.and_or_distrib_left]

lemma lor_eq_zero (a b : Nat) : a ||| b = 0 ↔ a = 0 ∧ b = 0 := by
  constructor
  · intro h
    constructor
    · apply Nat.eq_of_testBit_eq
      intro j
      have := congrArg (fun n => n.testBit j) h
      simp [Nat.testBit_lor] at this
      simp [this.1]
    · apply Nat.eq_of_testBit_eq
      intro j
      have := congrArg (fun n => n.testBit j) h
      simp [Nat.testBit_lor] at this
      simp [this.2]
  · rintro ⟨ha, hb⟩
    simp [ha, hb]

lemma special_mask_split (x : Nat) :
    x &&& special_values_mask = 0 ↔
      x &&& indeterminate_expression = 0 ∧ x &&& signed_integer_overflow = 0 := by
  have h : special_values_mask = indeterminate_expression ||| signed_integer_overflow := by
    decide
  rw [h, and_lor_left, lor_eq_zero]

lemma sio_flag_set (x : Nat) :
    (x ||| signed_integer_overflow) &&& signed_integer_overflow ≠ 0 := by
  intro hc
  have h : signed_integer_overflow = 2 ^ 15 := by decide
  rw [h, and_two_pow_eq_zero] at hc
  simp [Nat.testBit_lor] at hc
  exact absurd hc.2 (by decide)

lemma ind_flag_set (x : Nat) :
    (x ||| indeterminate_expression) &&& indeterminate_expression ≠ 0 := by
  intro hc
  have h : indeterminate_expression = 2 ^ 14 := by decide
  rw [h, and_two_pow_eq_zero] at hc
  simp [Nat.testBit_lor] at hc
  exact absurd hc.2 (by decide)

end IRMatcher

namespace IRMatcher

/-- A concrete sample initial state for witnesses: everything default. -/
def sInit : MState :=
  { bindings := fun _ => .intImm int32T 0,
    bound_const := fun _ => 0,
    bound_const_type := fun _ => int32T }

/-- C1: `Rewriter::operator()(before, after, pred)` returns true iff
`before` matches the root with mask 0 and the predicate folds (via
`make_folded_const`) to a non-zero payload whose result type has neither
poison bit set in its lanes field; and in that case the staged result is
`after.make` run in the post-predicate state. -/
theorem rewriter_fires_iff (fm : FM) (before after pred : Pattern)
    (root : Expr) (s0 : MState) (c0 : Nat) :
    ((rewriterApply fm before after pred root s0 c0).fired = true ↔
      ((pmatch fm before root 0 s0).1 = true ∧
       (foldConst fm pred (pmatch fm before root 0 s0).2 c0).val ≠ 0 ∧
       (foldConst fm pred (pmatch fm before root 0 s0).2 c0).ty.lanes &&&
         special_values_mask = 0)) ∧
    ((rewriterApply fm before after pred root s0 c0).fired = true →
      (rewriterApply fm before after pred root s0 c0).result =
        (pmake fm after (foldConst fm pred (pmatch fm before root 0 s0).2 c0).st
          (foldConst fm pred (pmatch fm before root 0 s0).2 c0).ctr).e?) := by
  unfold rewriterApply evaluate_predicate
  cases hm : (pmatch fm before root 0 s0).1
  · simp [hm]
  · by_cases hv : (foldConst fm pred (pmatch fm before root 0 s0).2 c0).val ≠ 0
    · by_cases hl : (foldConst fm pred (pmatch fm before root 0 s0).2 c0).ty.lanes &&&
          special_values_mask = 0
      · simp [hm, hv, hl]
      · simp [hm, hv, hl]
    · simp [hm, hv]

/-- Witness for C1: the rule `x + 0 → x when 0 == 0` fires on `y + 0`
and stages the binding of `x`. -/
theorem rewriter_fires_iff_w :
    (rewriterApply fmTriv (.binOp .add (.wild 0) (.const 0)) (.wild 0)
      (.cmpOp .eq (.const 0) (.const 0))
      (.binE int32T .add (.varE int32T 99) (.intImm int32T 0)) sInit 0).fired = true :=
  (rewriter_fires_iff fmTriv (.binOp .add (.wild 0) (.const 0)) (.wild 0)
    (.cmpOp .eq (.const 0) (.const 0))
    (.binE int32T .add (.varE int32T 99) (.intImm int32T 0)) sInit 0).1.mpr
    ⟨by decide, by decide, by decide⟩

end IRMatcher

namespace IRMatcher

/-- C8: `Wild<i>::match` — first occurrence (bit `i+16` clear in the
bound mask) always succeeds and binds the expression; a repeat occurrence
returns `equal(prev, e)` without touching the state, and that structural
type-aware equality holds exactly when the stored subtree equals the
candidate. -/
theorem wild_match_spec (fm : FM) (i : Nat) (e : Expr) (bound : Nat) (s : MState) :
    (∀ a b : Expr, eqE a b = true ↔ a = b) ∧
    (bound &&& (1 <<< (i + 16)) = 0 →
      pmatch fm (.wild i) e bound s = (true, s.set_binding i e)) ∧
    (bound &&& (1 <<< (i + 16)) ≠ 0 →
      pmatch fm (.wild i) e bound s = (eqE (s.bindings i) e, s) ∧
      ((pmatch fm (.wild i) e bound s).1 = true ↔ s.bindings i = e)) := by
  refine ⟨fun a b => by simp [eqE], fun h => by simp [pmatch, h], fun h => ?_⟩
  constructor
  · simp [pmatch, h]
  · simp [pmatch, h, eqE]

/-- Witness for C8: a repeat occurrence against the initial binding. -/
theorem wild_match_spec_w :
    pmatch fmTriv (.wild 0) (.intImm int32T 0) (1 <<< 16) sInit =
      (eqE (sInit.bindings 0) (.intImm int32T 0), sInit) :=
  ((wild_match_spec fmTriv 0 (.intImm int32T 0) (1 <<< 16) sInit).2.2 (by decide)).1

/-- C10: `BindOp<i, A>::make_folded_const` first folds `a`, stores the
folded payload and its full type — poison flags included — into
`bound_const[i]` / `bound_const_type[i]`, and then always evaluates to 1
at scalar `uint1` with no poison flags; consequently a bind used as a
predicate always passes `evaluate_predicate`. -/
theorem bindop_fold_spec (fm : FM) (i : Nat) (a : Pattern) (s : MState) (c : Nat) :
    foldConst fm (.bindOp i a) s c =
      { val := 1, ty := { code := .tuint, bits := 1, lanes := 1 },
        st := (foldConst fm a s c).st.set_bound_const i
                (foldConst fm a s c).val (foldConst fm a s c).ty,
        ctr := (foldConst fm a s c).ctr } ∧
    (evaluate_predicate fm (.bindOp i a) s c).1 = true := by
  constructor
  · rfl
  · simp [evaluate_predicate, foldConst]
    decide

/-- The integer id argument of an emitted sentinel intrinsic call. -/
def callArgId : Option Expr → Option Int
  | some (.callE _ _ (.intImm _ v)) => some v
  | _ => none

lemma to_expr_poisoned_ctr (v : Nat) (ty : HType) (c : Nat)
    (h : ty.lanes &&& special_values_mask ≠ 0) :
    callArgId (to_expr_val v ty c).1 = some (c : Int) ∧
    (to_expr_val v ty c).2 = c + 1 := by
  have hsplit := (special_mask_split ty.lanes).not
  by_cases hind : ty.lanes &&& indeterminate_expression = 0
  · have hsio : ty.lanes &&& signed_integer_overflow ≠ 0 := by
      intro hs
      exact h ((special_mask_split ty.lanes).mpr ⟨hind, hs⟩)
    have hfl : (ty.lanes &&& special_values_mask) &&& indeterminate_expression = 0 := by
      have hd : special_values_mask = indeterminate_expression ||| signed_integer_overflow := by
        decide
      have : ty.lanes &&& special_values_mask &&& indeterminate_expression =
          ty.lanes &&& (special_values_mask &&& indeterminate_expression) := by
        rw [Nat.land_assoc]
      rw [this]
      have : special_values_mask &&& indeterminate_expression = indeterminate_expression := by
        decide
      rw [this, hind]
    have hfl2 : (ty.lanes &&& special_values_mask) &&& signed_integer_overflow ≠ 0 := by
      have : ty.lanes &&& special_values_mask &&& signed_integer_overflow =
          ty.lanes &&& (special_values_mask &&& signed_integer_overflow) := by
        rw [Nat.land_assoc]
      rw [this]
      have h2 : special_values_mask &&& signed_integer_overflow = signed_integer_overflow := by
        decide
      rw [h2]
      exact hsio
    simp [to_expr_val, to_special_expr, h, hfl, hfl2, callArgId]
  · have hfl : (ty.lanes &&& special_values_mask) &&& indeterminate_expression ≠ 0 := by
      have : ty.lanes &&& special_values_mask &&& indeterminate_expression =
          ty.lanes &&& (special_values_mask &&& indeterminate_expression) := by
        rw [Nat.land_assoc]
      rw [this]
      have h2 : special_values_mask &&& indeterminate_expression = indeterminate_expression := by
        decide
      rw [h2]
      exact hind
    simp [to_expr_val, to_special_expr, h, hfl, callArgId]

/-- C7: emission of folded constants.  A type with the indeterminate bit
produces a call to `indeterminate_expression` whose type is the input
type with both poison bits cleared and whose single argument is the
current counter value (then incremented); with only the overflow bit, a
call to `signed_integer_overflow` likewise; two successive poisoned
emissions carry distinct ids; and a clean type with more than one lane
produces a `Broadcast` of the scalar immediate at the recorded lane
count. -/
theorem to_expr_emission_spec (v1 v2 : Nat) (ty1 ty2 : HType) (c : Nat) :
    (ty1.lanes &&& indeterminate_expression ≠ 0 →
      to_expr_val v1 ty1 c =
        (some (.callE { ty1 with lanes := ty1.lanes &&& 0x3fff }
          .indeterminate_expression (.intImm int32T c)), c + 1)) ∧
    (ty1.lanes &&& indeterminate_expression = 0 →
     ty1.lanes &&& signed_integer_overflow ≠ 0 →
      to_expr_val v1 ty1 c =
        (some (.callE { ty1 with lanes := ty1.lanes &&& 0x3fff }
          .signed_integer_overflow (.intImm int32T c)), c + 1)) ∧
    (ty1.lanes &&& special_values_mask ≠ 0 →
     ty2.lanes &&& special_values_mask ≠ 0 →
      callArgId (to_expr_val v2 ty2 (to_expr_val v1 ty1 c).2).1 ≠
        callArgId (to_expr_val v1 ty1 c).1) ∧
    (ty1.lanes &&& special_values_mask = 0 → 1 < ty1.lanes →
      (ty1.code = .tint →
        to_expr_val v1 ty1 c =
          (some (mkBroadcast (.intImm { ty1 with lanes := 1 } (asI64 v1)) ty1.lanes), c)) ∧
      (ty1.code = .tuint →
        to_expr_val v1 ty1 c =
          (some (mkBroadcast (.uintImm { ty1 with lanes := 1 } v1) ty1.lanes), c)) ∧
      (ty1.code = .tfloat →
        to_expr_val v1 ty1 c =
          (some (mkBroadcast (.floatImm { ty1 with lanes := 1 } v1) ty1.lanes), c))) := by
  refine ⟨?_, ?_, ?_, ?_⟩
  · intro hind
    have hsp : ty1.lanes &&& special_values_mask ≠ 0 := by
      intro hs
      exact hind ((special_mask_split ty1.lanes).mp hs).1
    have hfl : (ty1.lanes &&& special_values_mask) &&& indeterminate_expression ≠ 0 := by
      rw [Nat.land_assoc]
      have h2 : special_values_mask &&& indeterminate_expression = indeterminate_expression := by
        decide
      rw [h2]
      exact hind
    simp [to_expr_val, to_special_expr, hsp, hfl]
  · intro hind hsio
    have hsp : ty1.lanes &&& special_values_mask ≠ 0 := by
      intro hs
      exact hsio ((special_mask_split ty1.lanes).mp hs).2
    have hfl : (ty1.lanes &&& special_values_mask) &&& indeterminate_expression = 0 := by
      rw [Nat.land_assoc]
      have h2 : special_values_mask &&& indeterminate_expression = indeterminate_expression := by
        decide
      rw [h2]
      exact hind
    have hfl2 : (ty1.lanes &&& special_values_mask) &&& signed_integer_overflow ≠ 0 := by
      rw [Nat.land_assoc]
      have h2 : special_values_mask &&& signed_integer_overflow = signed_integer_overflow := by
        decide
      rw [h2]
      exact hsio
    simp [to_expr_val, to_special_expr, hsp, hfl, hfl2]
  · intro h1 h2
    have w1 := to_expr_poisoned_ctr v1 ty1 c h1
    have w2 := to_expr_poisoned_ctr v2 ty2 (to_expr_val v1 ty1 c).2 h2
    rw [w1.1, w2.1, w1.2]
    intro hcontra
    rw [Option.some_inj] at hcontra
    omega
  · intro hsp hlanes
    refine ⟨?_, ?_, ?_⟩ <;> intro hcode <;>
      simp [to_expr_val, hsp, hcode, hlanes]
end IRMatcher

namespace IRMatcher

/-- C4: the integer `Div`/`Mod` fold kernels on a zero divisor return
payload 0 and set the indeterminate flag; on a non-zero divisor they
leave the (clean) type without the indeterminate flag. -/
theorem div_mod_zero_spec (t : HType) (a : Int) (u : Nat) (b : Int) (n : Nat)
    (hclean : t.lanes &&& indeterminate_expression = 0)
    (hb : b ≠ 0) (hn : n ≠ 0) :
    (cfBinInt .div t a 0 = (0, t.ind) ∧
     cfBinInt .mod t a 0 = (0, t.ind) ∧
     cfBinUInt .div t u 0 = (0, t.ind) ∧
     cfBinUInt .mod t u 0 = (0, t.ind) ∧
     (t.ind).lanes &&& indeterminate_expression ≠ 0) ∧
    ((cfBinInt .div t a b).2.lanes &&& indeterminate_expression = 0 ∧
     (cfBinInt .mod t a b).2.lanes &&& indeterminate_expression = 0 ∧
     (cfBinUInt .div t u n).2.lanes &&& indeterminate_expression = 0 ∧
     (cfBinUInt .mod t u n).2.lanes &&& indeterminate_expression = 0) := by
  refine ⟨⟨rfl, rfl, rfl, rfl, ind_flag_set t.lanes⟩, ?_⟩
  simp [cfBinInt, cfBinUInt, hb, hn, hclean]

/-- Witness for C4 on a concrete 32-bit type and operands. -/
theorem div_mod_zero_spec_w :
    cfBinInt .div { code := .tint, bits := 32, lanes := 1 } 7 0 =
      (0, HType.ind { code := .tint, bits := 32, lanes := 1 }) ∧
    (cfBinInt .div { code := .tint, bits := 32, lanes := 1 } 7 3).2.lanes &&&
      indeterminate_expression = 0 :=
  ⟨(div_mod_zero_spec { code := .tint, bits := 32, lanes := 1 } 7 7 3 3
      (by decide) (by decide) (by decide)).1.1,
   (div_mod_zero_spec { code := .tint, bits := 32, lanes := 1 } 7 7 3 3
      (by decide) (by decide) (by decide)).2.1⟩

lemma sext_of_fits (bits : Nat) (hb : 0 < bits) (x : Int)
    (h : fitsB bits x = true) : sext bits x = x := by
  simp only [fitsB, decide_eq_true_eq] at h
  obtain ⟨h1, h2⟩ := h
  have hsplit : (2 : Int) ^ bits = 2 ^ (bits - 1) + 2 ^ (bits - 1) := by
    conv_lhs => rw [← Nat.sub_add_cancel hb]
    rw [pow_succ]
    ring
  have hp : (0 : Int) < 2 ^ (bits - 1) := by positivity
  unfold sext
  by_cases hx : 0 ≤ x
  · have hm : x % (2 : Int) ^ bits = x := Int.emod_eq_of_lt hx (by omega)
    simp only [hm]
    rw [if_pos h2]
  · push_neg at hx
    have hm : x % (2 : Int) ^ bits = x + 2 ^ bits := by
      have h0 := Int.add_mul_emod_self_left x ((2 : Int) ^ bits) 1
      rw [mul_one] at h0
      rw [← h0, Int.emod_eq_of_lt (by omega) (by omega)]
    simp only [hm]
    rw [if_neg (by omega)]
    omega

lemma sio_branch_flag (t : HType) (cond : Bool)
    (hclean : t.lanes &&& signed_integer_overflow = 0) :
    ((if cond then t.sio else t).lanes &&& signed_integer_overflow ≠ 0 ↔ cond = true) := by
  cases cond
  · simp [hclean]
  · simpa [HType.sio] using sio_flag_set t.lanes

/-- The exact mathematical result of `Add`/`Sub`/`Mul`. -/
def exactOf (op : BinOpKind) (a b : Int) : Int :=
  match op with
  | .add => a + b
  | .sub => a - b
  | .mul => a * b
  | _ => 0

/-- C3: the signed `Add`/`Sub`/`Mul` fold kernels compute in 64 bits and
truncate-and-sign-extend to `t.bits`; the overflow flag is set iff
`t.bits ≥ 32` and the exact result does not fit in `t.bits`; when the
exact result fits, the payload is exactly the mathematical result and
the type is unchanged (flag unset). -/
theorem signed_fold_spec (op : BinOpKind) (t : HType) (a b : Int)
    (hop : op = .add ∨ op = .sub ∨ op = .mul)
    (hbits : 0 < t.bits)
    (hclean : t.lanes &&& special_values_mask = 0)
    (_ha : fitsB t.bits a = true) (_hb : fitsB t.bits b = true) :
    (cfBinInt op t a b).1 = sext t.bits (exactOf op a b) ∧
    ((cfBinInt op t a b).2.lanes &&& signed_integer_overflow ≠ 0 ↔
      (32 ≤ t.bits ∧ fitsB t.bits (exactOf op a b) = false)) ∧
    (fitsB t.bits (exactOf op a b) = true →
      (cfBinInt op t a b).1 = exactOf op a b ∧ (cfBinInt op t a b).2 = t) := by
  have hsio : t.lanes &&& signed_integer_overflow = 0 :=
    ((special_mask_split t.lanes).mp hclean).2
  rcases hop with h | h | h <;> subst h
  · refine ⟨rfl, ?_, ?_⟩
    · rw [show (cfBinInt .add t a b).2 =
          (if 32 ≤ t.bits && add_would_overflow t.bits a b then t.sio else t) from rfl]
      rw [sio_branch_flag t _ hsio]
      simp [add_would_overflow, exactOf]
    · intro hfit
      constructor
      · show sext t.bits (a + b) = _
        rw [sext_of_fits t.bits hbits _ (by simpa [exactOf] using hfit)]
        simp [exactOf]
      · show (if 32 ≤ t.bits && add_would_overflow t.bits a b then t.sio else t) = t
        simp [exactOf] at hfit
        simp [add_would_overflow, hfit]
  · refine ⟨rfl, ?_, ?_⟩
    · rw [show (cfBinInt .sub t a b).2 =
          (if 32 ≤ t.bits && sub_would_overflow t.bits a b then t.sio else t) from rfl]
      rw [sio_branch_flag t _ hsio]
      simp [sub_would_overflow, exactOf]
    · intro hfit
      constructor
      · show sext t.bits (a - b) = _
        rw [sext_of_fits t.bits hbits _ (by simpa [exactOf] using hfit)]
        simp [exactOf]
      · show (if 32 ≤ t.bits && sub_would_overflow t.bits a b then t.sio else t) = t
        simp [exactOf] at hfit
        simp [sub_would_overflow, hfit]
  · refine ⟨rfl, ?_, ?_⟩
    · rw [show (cfBinInt .mul t a b).2 =
          (if 32 ≤ t.bits && mul_would_overflow t.bits a b then t.sio else t) from rfl]
      rw [sio_branch_flag t _ hsio]
      simp [mul_would_overflow, exactOf]
    · intro hfit
      constructor
      · show sext t.bits (a * b) = _
        rw [sext_of_fits t.bits hbits _ (by simpa [exactOf] using hfit)]
        simp [exactOf]
      · show (if 32 ≤ t.bits && mul_would_overflow t.bits a b then t.sio else t) = t
        simp [exactOf] at hfit
        simp [mul_would_overflow, hfit]

/-- Witness for C3: `3 + 5` at `int32` folds exactly with no overflow,
and `2147483647 + 1` at `int32` sets the overflow flag. -/
theorem signed_fold_spec_w :
    (cfBinInt .add { code := .tint, bits := 32, lanes := 1 } 3 5).1 = 8 ∧
    ((cfBinInt .add { code := .tint, bits := 32, lanes := 1 } 2147483647 1).2.lanes &&&
      signed_integer_overflow ≠ 0) :=
  ⟨((signed_fold_spec .add { code := .tint, bits := 32, lanes := 1 } 3 5
      (Or.inl rfl) (by decide) (by decide) (by decide) (by decide)).2.2 (by decide)).1,
   (signed_fold_spec .add { code := .tint, bits := 32, lanes := 1 } 2147483647 1
      (Or.inl rfl) (by decide) (by decide) (by decide) (by decide)).2.1.mpr
      ⟨by decide, by decide⟩⟩

end IRMatcher

namespace IRMatcher

/-- Counterexample for C9: `IsConstOp::make_folded_const` sets the result
type's bits to 64, not 1, on a concrete constant-producing operand. -/
theorem isconst_fold_cex :
    (foldConst fmTriv (.isConstOp (.wildConstInt 0)) sInit 0).ty.bits ≠ 1 := by
  decide

/-- C9 (amended): `IsConstOp(a).make_folded_const` produces a value of
scalar type `uint` with 64 bits (lanes 1) whose payload is 1 if
`a.make(S)` is a constant expression and 0 otherwise. -/
theorem isconst_fold_spec (fm : FM) (a : Pattern) (s : MState) (c : Nat) (e : Expr)
    (h : (pmake fm a s c).e? = some e) :
    (foldConst fm (.isConstOp a) s c).val = (if is_const_e e then 1 else 0) ∧
    (foldConst fm (.isConstOp a) s c).ty =
      { code := .tuint, bits := 64, lanes := 1 } := by
  constructor
  · show (match (pmake fm a s c).e? with
          | some e => if is_const_e e then 1 else 0
          | none => 0) = _
    rw [h]
  · rfl

/-- Witness for C9: the bound constant 0 at `int32` is a constant
expression, so the fold yields payload 1 at `uint64`. -/
theorem isconst_fold_spec_w :
    (foldConst fmTriv (.isConstOp (.wildConstInt 0)) sInit 0).val =
      (if is_const_e (.intImm int32T 0) then 1 else 0) ∧
    (foldConst fmTriv (.isConstOp (.wildConstInt 0)) sInit 0).ty =
      { code := .tuint, bits := 64, lanes := 1 } :=
  isconst_fold_spec fmTriv (.wildConstInt 0) sInit 0 (.intImm int32T 0) (by decide)

end IRMatcher

namespace IRMatcher

lemma wcIntMatch_spec (i : Nat) (e : Expr) (bound : Nat) (s : MState) :
    (bound &&& (1 <<< i) = 0 →
      (∀ t v, peelB e = .intImm t v →
        wcIntMatch i e bound s = (true, s.set_bound_const i (ofI64 v) e.etype)) ∧
      ((∀ t v, peelB e ≠ .intImm t v) → wcIntMatch i e bound s = (false, s))) ∧
    (bound &&& (1 <<< i) ≠ 0 →
      (wcIntMatch i e bound s).2 = s ∧
      ((wcIntMatch i e bound s).1 = true ↔
        ∃ t v, peelB e = .intImm t v ∧ t = s.bound_const_type i ∧
          v = asI64 (s.bound_const i))) := by
  constructor
  · intro hb
    constructor
    · intro t v hpe
      simp [wcIntMatch, hpe, hb]
    · intro hne
      cases hpe : peelB e
      case intImm t v => exact absurd hpe (hne t v)
      all_goals simp [wcIntMatch, hpe]
  · intro hb
    constructor
    · cases hpe : peelB e <;> simp [wcIntMatch, hpe, hb]
    · cases hpe : peelB e <;> simp [wcIntMatch, hpe, hb]

lemma wcUIntMatch_spec (i : Nat) (e : Expr) (bound : Nat) (s : MState) :
    (bound &&& (1 <<< i) = 0 →
      (∀ t v, peelB e = .uintImm t v →
        wcUIntMatch i e bound s = (true, s.set_bound_const i v e.etype)) ∧
      ((∀ t v, peelB e ≠ .uintImm t v) → wcUIntMatch i e bound s = (false, s))) ∧
    (bound &&& (1 <<< i) ≠ 0 →
      (wcUIntMatch i e bound s).2 = s ∧
      ((wcUIntMatch i e bound s).1 = true ↔
        ∃ t v, peelB e = .uintImm t v ∧ t = s.bound_const_type i ∧
          v = s.bound_const i)) := by
  constructor
  · intro hb
    constructor
    · intro t v hpe
      simp [wcUIntMatch, hpe, hb]
    · intro hne
      cases hpe : peelB e
      case uintImm t v => exact absurd hpe (hne t v)
      all_goals simp [wcUIntMatch, hpe]
  · intro hb
    constructor
    · cases hpe : peelB e <;> simp [wcUIntMatch, hpe, hb]
    · cases hpe : peelB e <;> simp [wcUIntMatch, hpe, hb]

lemma wcFloatMatch_spec (fm : FM) (i : Nat) (e : Expr) (bound : Nat) (s : MState) :
    (bound &&& (1 <<< i) = 0 →
      (∀ t v, peelB e = .floatImm t v →
        wcFloatMatch fm i e bound s = (true, s.set_bound_const i v e.etype)) ∧
      ((∀ t v, peelB e ≠ .floatImm t v) → wcFloatMatch fm i e bound s = (false, s))) ∧
    (bound &&& (1 <<< i) ≠ 0 →
      (wcFloatMatch fm i e bound s).2 = s ∧
      ((wcFloatMatch fm i e bound s).1 = true ↔
        ∃ t v, peelB e = .floatImm t v ∧ t = s.bound_const_type i ∧
          fm.feq v (s.bound_const i) = true)) := by
  constructor
  · intro hb
    constructor
    · intro t v hpe
      simp [wcFloatMatch, hpe, hb]
    · intro hne
      cases hpe : peelB e
      case floatImm t v => exact absurd hpe (hne t v)
      all_goals simp [wcFloatMatch, hpe]
  · intro hb
    constructor
    · cases hpe : peelB e <;> simp [wcFloatMatch, hpe, hb]
    · cases hpe : peelB e <;> simp [wcFloatMatch, hpe, hb]
      constructor
      · rintro ⟨h1, h2⟩
        exact ⟨_, _, ⟨rfl, rfl⟩, h1, h2⟩
      · rintro ⟨t, v, ⟨rfl, rfl⟩, h1, h2⟩
        exact ⟨h1, h2⟩

/-- C2 (amended): for each constant wildcard, a first occurrence matches
iff the expression — after peeling one outer `Broadcast` — is the
corresponding immediate, and binds the pair (value, `e.type`), the type
of the whole matched expression including its lane count; a repeat
occurrence leaves the state untouched and succeeds iff the *peeled
immediate's own type* equals the previously stored type and the value
agrees (bit-equality for int/uint, double equality for float).  Because
the stored type of a broadcast binding keeps the vector lane count while
the compared immediate type is scalar, matching the same
broadcast-of-a-constant twice with the same wildcard fails; a repeat can
only succeed against a scalar immediate. -/
theorem wild_const_match_spec (fm : FM) (i : Nat) (e : Expr) (bound : Nat) (s : MState) :
    ((bound &&& (1 <<< i) = 0 →
      (∀ t v, peelB e = .intImm t v →
        pmatch fm (.wildConstInt i) e bound s =
          (true, s.set_bound_const i (ofI64 v) e.etype)) ∧
      ((∀ t v, peelB e ≠ .intImm t v) →
        pmatch fm (.wildConstInt i) e bound s = (false, s))) ∧
     (bound &&& (1 <<< i) ≠ 0 →
      (pmatch fm (.wildConstInt i) e bound s).2 = s ∧
      ((pmatch fm (.wildConstInt i) e bound s).1 = true ↔
        ∃ t v, peelB e = .intImm t v ∧ t = s.bound_const_type i ∧
          v = asI64 (s.bound_const i)))) ∧
    ((bound &&& (1 <<< i) = 0 →
      (∀ t v, peelB e = .uintImm t v →
        pmatch fm (.wildConstUInt i) e bound s =
          (true, s.set_bound_const i v e.etype)) ∧
      ((∀ t v, peelB e ≠ .uintImm t v) →
        pmatch fm (.wildConstUInt i) e bound s = (false, s))) ∧
     (bound &&& (1 <<< i) ≠ 0 →
      (pmatch fm (.wildConstUInt i) e bound s).2 = s ∧
      ((pmatch fm (.wildConstUInt i) e bound s).1 = true ↔
        ∃ t v, peelB e = .uintImm t v ∧ t = s.bound_const_type i ∧
          v = s.bound_const i))) ∧
    ((bound &&& (1 <<< i) = 0 →
      (∀ t v, peelB e = .floatImm t v →
        pmatch fm (.wildConstFloat i) e bound s =
          (true, s.set_bound_const i v e.etype)) ∧
      ((∀ t v, peelB e ≠ .floatImm t v) →
        pmatch fm (.wildConstFloat i) e bound s = (false, s))) ∧
     (bound &&& (1 <<< i) ≠ 0 →
      (pmatch fm (.wildConstFloat i) e bound s).2 = s ∧
      ((pmatch fm (.wildConstFloat i) e bound s).1 = true ↔
        ∃ t v, peelB e = .floatImm t v ∧ t = s.bound_const_type i ∧
          fm.feq v (s.bound_const i) = true))) :=
  ⟨wcIntMatch_spec i e bound s, wcUIntMatch_spec i e bound s,
   wcFloatMatch_spec fm i e bound s⟩

/-- The vector `int32x4` type and a broadcast of the `int32` constant 5. -/
def i32x4 : HType := { code := .tint, bits := 32, lanes := 4 }

/-- `Broadcast(IntImm(int32, 5), 4)`, of type `int32x4`. -/
def eBc5 : Expr := .bcast i32x4 (.intImm int32T 5) 4

/-- Counterexample for C2: matching the same broadcast-of-a-constant
twice with the same constant wildcard does NOT succeed — the first match
binds the vector type `int32x4`, and the repeat occurrence compares it
against the peeled immediate's scalar type `int32`. -/
theorem wild_const_broadcast_rematch_cex :
    (pmatch fmTriv (.wildConstInt 0) eBc5 0 sInit).1 = true ∧
    (pmatch fmTriv (.wildConstInt 0) eBc5 (1 <<< 0)
      (pmatch fmTriv (.wildConstInt 0) eBc5 0 sInit).2).1 = false := by
  decide

/-- Witness for C2: a first occurrence on the broadcast binds the value 5
with the full vector type `int32x4`, and a repeat occurrence on a scalar
immediate equal to its own binding succeeds. -/
theorem wild_const_match_spec_w :
    (pmatch fmTriv (.wildConstInt 0) eBc5 0 sInit =
      (true, sInit.set_bound_const 0 (ofI64 5) eBc5.etype)) ∧
    ((pmatch fmTriv (.wildConstInt 1) (.intImm int32T 0) (1 <<< 1) sInit).1 = true) :=
  ⟨((wild_const_match_spec fmTriv 0 eBc5 0 sInit).1.1 (by decide)).1 int32T 5 (by decide),
   ((wild_const_match_spec fmTriv 1 (.intImm int32T 0) (1 <<< 1) sInit).1.2
      (by decide)).2.mpr ⟨int32T, 0, by decide, by decide, by decide⟩⟩

end IRMatcher

namespace IRMatcher

/-- Scalar clean `uint32`. -/
def u32T : HType := { code := .tuint, bits := 32, lanes := 1 }

/-- A state binding constant wildcard 0 to `1 : uint32` and constant
wildcard 1 to `0 : uint32` (a zero divisor). -/
def sDiv01 : MState :=
  { sInit with bound_const := fun i => if i = 0 then 1 else 0,
               bound_const_type := fun _ => u32T }

/-- `c0 / c1`, which folds to a poisoned (indeterminate) value under
`sDiv01`. -/
def pPois : Pattern := .binOp .div (.wildConstUInt 0) (.wildConstUInt 1)

/-- Counterexample for C5: with a literal `Const 0` as the left operand
of `And` (the `BinOpFolder<Op, Const, B>` specialization, source lines
571-598), folding `0 && (c0 / c1)` with a zero divisor yields payload 0
but KEEPS the poison flag of the right operand — the claim's "no poison
flags" fails when one operand is a literal `Const`. -/
theorem and_const_no_shortcircuit_cex :
    (foldConst fmTriv (.binOp .andOp (.const 0) pPois) sDiv01 0).val = 0 ∧
    (foldConst fmTriv (.binOp .andOp (.const 0) pPois) sDiv01 0).ty.lanes &&&
      special_values_mask ≠ 0 := by
  decide

/-- C5 (amended): the generic pattern-times-pattern `BinOpFolder`
short-circuits: when the left operand folds to payload 0 for `And` (1
for `Or`), the fold returns the left operand's payload, type and state —
the right operand's `make_folded_const` is never evaluated, so its
poison and state effects do not occur.  The `Const` specializations do
not short-circuit: with a literal `Const 0` on the left of `And` (or
`Const 1` on the left of `Or`) the right operand is always folded, its
poison flags remain in the result type and its state effects occur (the
payload is `0 &&& v` resp. `1 ||| v` in the uint domain). -/
theorem and_or_shortcircuit_spec (fm : FM) (a b : Pattern) (s : MState) (c : Nat)
    (hA : isConstP a = false) (hB : isConstP b = false) :
    ((foldConst fm a s c).val = 0 →
      foldConst fm (.binOp .andOp a b) s c = foldConst fm a s c) ∧
    ((foldConst fm a s c).val = 1 →
      foldConst fm (.binOp .orOp a b) s c = foldConst fm a s c) ∧
    ((foldConst fm b s c).ty.code = .tuint →
      foldConst fm (.binOp .andOp (.const 0) b) s c =
        { foldConst fm b s c with val := 0 }) ∧
    ((foldConst fm b s c).ty.code = .tuint →
      foldConst fm (.binOp .orOp (.const 1) b) s c =
        { foldConst fm b s c with val := 1 ||| (foldConst fm b s c).val }) := by
  refine ⟨?_, ?_, ?_, ?_⟩
  · intro hz
    simp [foldConst, hA, hB, hz]
  · intro ho
    simp [foldConst, hA, hB, ho]
  · intro hcode
    simp only [foldConst, isConstP]
    simp [hcode, cfBinUInt, constVal, ofI64]
  · intro hcode
    simp only [foldConst, isConstP]
    simp [hcode, cfBinUInt, constVal, ofI64]

/-- A state in which every constant wildcard holds `0 : uint32`. -/
def sZeros : MState := { sInit with bound_const_type := fun _ => u32T }

/-- Witness for C5: the generic folder short-circuits `c2 && (c0 / c1)`
when `c2` folds to 0, returning the clean left result. -/
theorem and_or_shortcircuit_spec_w :
    foldConst fmTriv (.binOp .andOp (.wildConstUInt 2) pPois) sZeros 0 =
      foldConst fmTriv (.wildConstUInt 2) sZeros 0 :=
  (and_or_shortcircuit_spec fmTriv (.wildConstUInt 2) pPois sZeros 0
    (by decide) (by decide)).1 (by decide)

end IRMatcher

namespace IRMatcher

lemma ofI64_cast_nonneg (v : Int) (h0 : 0 ≤ v) (h1 : v < 2 ^ 64) :
    (ofI64 v : Int) = v := by
  unfold ofI64
  rw [Int.emod_eq_of_lt h0 h1]
  exact Int.toNat_of_nonneg h0

lemma ofI64_cast_neg (v : Int) (h0 : -(2 ^ 64) ≤ v) (h1 : v < 0) :
    (ofI64 v : Int) = v + 2 ^ 64 := by
  unfold ofI64
  have hsh := Int.add_mul_emod_self_left v ((2 : Int) ^ 64) 1
  rw [mul_one] at hsh
  rw [← hsh, Int.emod_eq_of_lt (by omega) (by omega)]
  exact Int.toNat_of_nonneg (by omega)

lemma asI64_ofI64 (v : Int) (h0 : -(2 ^ 63) ≤ v) (h1 : v < 2 ^ 63) :
    asI64 (ofI64 v) = v := by
  unfold asI64
  by_cases hv : 0 ≤ v
  · have hc := ofI64_cast_nonneg v hv (by omega)
    have hlt : ofI64 v < 2 ^ 64 := by
      have hx : (ofI64 v : Int) < 2 ^ 64 := by rw [hc]; omega
      exact_mod_cast hx
    have hlt63 : ofI64 v % 2 ^ 64 < 2 ^ 63 := by
      rw [Nat.mod_eq_of_lt hlt]
      have hx : (ofI64 v : Int) < 2 ^ 63 := by rw [hc]; omega
      exact_mod_cast hx
    rw [if_pos hlt63, Nat.mod_eq_of_lt hlt]
    exact hc
  · push_neg at hv
    have hc := ofI64_cast_neg v (by omega) hv
    have hlt : ofI64 v < 2 ^ 64 := by
      have hx : (ofI64 v : Int) < 2 ^ 64 := by rw [hc]; omega
      exact_mod_cast hx
    have hge : ¬ ofI64 v % 2 ^ 64 < 2 ^ 63 := by
      rw [Nat.mod_eq_of_lt hlt]
      intro hcon
      have hx : (ofI64 v : Int) < 2 ^ 63 := by exact_mod_cast hcon
      rw [hc] at hx
      omega
    rw [if_neg hge, Nat.mod_eq_of_lt hlt, hc]
    ring


lemma neg_flag_cond_iff (bits : Nat) (hb32 : 32 ≤ bits) (hb64 : bits ≤ 64) (v : Int)
    (hfit : fitsB bits v = true) :
    (ofI64 v % 2 ^ 64 ≠ 0 ∧ (ofI64 v <<< (65 - bits)) % 2 ^ 64 = 0 ↔
      v = -((2 : Int) ^ (bits - 1))) := by
  simp only [fitsB, decide_eq_true_eq] at hfit
  obtain ⟨hf1, hf2⟩ := hfit
  have hdpos : (0 : Int) < 2 ^ (bits - 1) := by positivity
  have hd63 : ((2 : Int) ^ (bits - 1)) ≤ 2 ^ 63 := by
    apply pow_le_pow_right₀ (by norm_num)
    omega
  have hshift : (ofI64 v <<< (65 - bits)) % 2 ^ 64 = 0 ↔ 2 ^ (bits - 1) ∣ ofI64 v := by
    rw [Nat.shiftLeft_eq]
    rw [← Nat.dvd_iff_mod_eq_zero]
    have hsplit : (2 : Nat) ^ 64 = 2 ^ (bits - 1) * 2 ^ (65 - bits) := by
      rw [← pow_add]
      congr 1
      omega
    rw [hsplit]
    exact Nat.mul_dvd_mul_iff_right (Nat.pos_pow_of_pos _ (by norm_num))
  rw [hshift]
  by_cases hv : 0 ≤ v
  · have hc := ofI64_cast_nonneg v hv (by omega)
    have hrawlt : ofI64 v < 2 ^ (bits - 1) := by
      have hx : (ofI64 v : Int) < (2 : Int) ^ (bits - 1) := by rw [hc]; omega
      have hcast : ((2 : Nat) ^ (bits - 1) : Int) = (2 : Int) ^ (bits - 1) := by push_cast; ring
      rw [← hcast] at hx
      exact_mod_cast hx
    constructor
    · rintro ⟨hne, hdvd⟩
      have hraw_pos : 0 < ofI64 v := by
        rcases Nat.eq_zero_or_pos (ofI64 v) with h | h
        · exact absurd (by simp [h]) hne
        · exact h
      have hle := Nat.le_of_dvd hraw_pos hdvd
      omega
    · intro hcon
      omega
  · push_neg at hv
    have hc := ofI64_cast_neg v (by omega) hv
    have hraw_eq : (ofI64 v : Int) = v + 2 ^ 64 := hc
    have hrawlt : ofI64 v < 2 ^ 64 := by
      have hx : (ofI64 v : Int) < 2 ^ 64 := by rw [hc]; omega
      exact_mod_cast hx
    have hne : ofI64 v % 2 ^ 64 ≠ 0 := by
      rw [Nat.mod_eq_of_lt hrawlt]
      intro hz
      have hx : (ofI64 v : Int) = 0 := by exact_mod_cast hz
      omega
    have hdvd64 : ((2 : Int) ^ (bits - 1)) ∣ (2 : Int) ^ 64 := pow_dvd_pow 2 (by omega)
    have hcast : ((2 : Nat) ^ (bits - 1) : Int) = (2 : Int) ^ (bits - 1) := by push_cast; ring
    constructor
    · rintro ⟨-, hdvd⟩
      have hdvdInt : ((2 : Int) ^ (bits - 1)) ∣ (ofI64 v : Int) := by
        rw [← hcast]
        exact_mod_cast hdvd
      rw [hc, add_comm] at hdvdInt
      have hdvdv : ((2 : Int) ^ (bits - 1)) ∣ v := (dvd_add_right hdvd64).mp hdvdInt
      obtain ⟨cc, hcc⟩ := hdvdv
      have h1 : cc < 0 := by
        by_contra hcon
        push_neg at hcon
        have hge : 0 ≤ (2 : Int) ^ (bits - 1) * cc :=
          mul_nonneg (le_of_lt hdpos) hcon
        rw [← hcc] at hge
        omega
      have h2 : -1 ≤ cc := by
        by_contra hcon
        push_neg at hcon
        have hle2 : cc ≤ -2 := by omega
        have hmul : (2 : Int) ^ (bits - 1) * cc ≤ (2 : Int) ^ (bits - 1) * (-2) :=
          mul_le_mul_of_nonneg_left hle2 (le_of_lt hdpos)
        rw [← hcc] at hmul
        have hr : (2 : Int) ^ (bits - 1) * (-2) =
            -((2 : Int) ^ (bits - 1) + (2 : Int) ^ (bits - 1)) := by ring
        rw [hr] at hmul
        omega
      have hcc1 : cc = -1 := by omega
      rw [hcc1, mul_neg_one] at hcc
      exact hcc
    · intro hcon
      refine ⟨hne, ?_⟩
      have hgoal : ((2 : Nat) ^ (bits - 1) : Int) ∣ ((ofI64 v : Nat) : Int) := by
        rw [hcast, hc, hcon]
        exact dvd_add (dvd_neg.mpr dvd_rfl) hdvd64
      exact_mod_cast hgoal

end IRMatcher

namespace IRMatcher

/-- C6: `NegateOp::make_folded_const` over a signed bound constant `v` of
a ≥32-bit type: the overflow flag is set iff `v` is the most negative
value of the type; otherwise the payload is the truncate-and-sign-extend
of `-v` (`((-v) << (64-bits)) >> (64-bits)`) and the type is unchanged.
State and counter are untouched. -/
theorem negate_fold_spec (fm : FM) (s : MState) (c : Nat) (v : Int)
    (hv : s.bound_const 0 = ofI64 v)
    (hcode : (s.bound_const_type 0).code = .tint)
    (hb32 : 32 ≤ (s.bound_const_type 0).bits)
    (hb64 : (s.bound_const_type 0).bits ≤ 64)
    (hfit : fitsB (s.bound_const_type 0).bits v = true)
    (hclean : (s.bound_const_type 0).lanes &&& special_values_mask = 0) :
    ((foldConst fm (.negateOp (.wildConstInt 0)) s c).ty.lanes &&&
        signed_integer_overflow ≠ 0 ↔
      v = -((2 : Int) ^ ((s.bound_const_type 0).bits - 1))) ∧
    (v ≠ -((2 : Int) ^ ((s.bound_const_type 0).bits - 1)) →
      (foldConst fm (.negateOp (.wildConstInt 0)) s c).val =
        ofI64 (sext (s.bound_const_type 0).bits (-v)) ∧
      (foldConst fm (.negateOp (.wildConstInt 0)) s c).ty = s.bound_const_type 0) ∧
    (foldConst fm (.negateOp (.wildConstInt 0)) s c).st = s ∧
    (foldConst fm (.negateOp (.wildConstInt 0)) s c).ctr = c := by
  have hsio0 : (s.bound_const_type 0).lanes &&& signed_integer_overflow = 0 :=
    ((special_mask_split _).mp hclean).2
  have hiff := neg_flag_cond_iff (s.bound_const_type 0).bits hb32 hb64 v hfit
  have hrange : -((2 : Int) ^ 63) ≤ v ∧ v < 2 ^ 63 := by
    simp only [fitsB, decide_eq_true_eq] at hfit
    have hle : ((2 : Int) ^ ((s.bound_const_type 0).bits - 1)) ≤ 2 ^ 63 := by
      apply pow_le_pow_right₀ (by norm_num)
      omega
    constructor <;> omega
  have hval : asI64 (s.bound_const 0) = v := by
    rw [hv]
    exact asI64_ofI64 v hrange.1 hrange.2
  have hunfold : foldConst fm (.negateOp (.wildConstInt 0)) s c =
      (if 32 ≤ (s.bound_const_type 0).bits ∧ s.bound_const 0 % 2 ^ 64 ≠ 0 ∧
          (s.bound_const 0 <<< (65 - (s.bound_const_type 0).bits)) % 2 ^ 64 = 0 then
        { val := s.bound_const 0, ty := (s.bound_const_type 0).sio, st := s, ctr := c }
      else
        { val := ofI64 (sext (s.bound_const_type 0).bits (-(asI64 (s.bound_const 0)))),
          ty := s.bound_const_type 0, st := s, ctr := c }) := by
    conv_lhs => rw [foldConst]
    rw [show (foldConst fm (.wildConstInt 0) s c).ty.code = TCode.tint from hcode]
    rfl
  by_cases hmn : v = -((2 : Int) ^ ((s.bound_const_type 0).bits - 1))
  · have hcond : s.bound_const 0 % 2 ^ 64 ≠ 0 ∧
        (s.bound_const 0 <<< (65 - (s.bound_const_type 0).bits)) % 2 ^ 64 = 0 := by
      rw [hv]
      exact hiff.mpr hmn
    rw [hunfold, if_pos ⟨hb32, hcond.1, hcond.2⟩]
    refine ⟨?_, fun hne => absurd hmn hne, rfl, rfl⟩
    constructor
    · intro _
      exact hmn
    · intro _
      show ((s.bound_const_type 0).lanes ||| signed_integer_overflow) &&&
        signed_integer_overflow ≠ 0
      exact sio_flag_set _
  · have hcond : ¬(32 ≤ (s.bound_const_type 0).bits ∧ s.bound_const 0 % 2 ^ 64 ≠ 0 ∧
        (s.bound_const 0 <<< (65 - (s.bound_const_type 0).bits)) % 2 ^ 64 = 0) := by
      rw [hv]
      exact fun hcon => hmn (hiff.mp ⟨hcon.2.1, hcon.2.2⟩)
    rw [hunfold, if_neg hcond]
    refine ⟨?_, fun _ => ⟨by rw [hval], rfl⟩, rfl, rfl⟩
    constructor
    · intro hflag
      exact absurd hsio0 hflag
    · intro h
      exact absurd h hmn

/-- A state binding constant wildcard 0 to `INT32_MIN : int32`. -/
def sMin32 : MState := { sInit with bound_const := fun _ => ofI64 (-2147483648) }

/-- Witness for C6: negating `INT32_MIN` at `int32` sets the overflow
flag; negating `7` does not, and yields `-7`. -/
theorem negate_fold_spec_w :
    ((foldConst fmTriv (.negateOp (.wildConstInt 0)) sMin32 0).ty.lanes &&&
      signed_integer_overflow ≠ 0) ∧
    (foldConst fmTriv (.negateOp (.wildConstInt 0))
      { sInit with bound_const := fun _ => ofI64 7 } 0).val = ofI64 (sext 32 (-7)) :=
  ⟨(negate_fold_spec fmTriv sMin32 0 (-2147483648) (by decide) (by decide) (by decide)
      (by decide) (by decide) (by decide)).1.mpr (by decide),
   ((negate_fold_spec fmTriv { sInit with bound_const := fun _ => ofI64 7 } 0 7
      (by decide) (by decide) (by decide) (by decide) (by decide) (by decide)).2.1
      (by decide)).1⟩

end IRMatcher

namespace IRMatcher

/-- Witness for C7: a poisoned `int32` type (indeterminate bit set in
lanes) emits the sentinel call carrying the current counter value 5. -/
theorem to_expr_emission_spec_w :
    to_expr_val 0 { code := .tint, bits := 32, lanes := 16385 } 5 =
      (some (.callE { code := .tint, bits := 32, lanes := 16385 &&& 0x3fff }
        .indeterminate_expression (.intImm int32T 5)), 5 + 1) :=
  (to_expr_emission_spec 0 0 { code := .tint, bits := 32, lanes := 16385 }
    { code := .tint, bits := 32, lanes := 16385 } 5).1 (by decide)

end IRMatcher
